import Mathlib

/-!
Shallow embedding of the gex status TUI (src/main.rs).

Strings are modelled as `List Char` (`Str`).  Rust's `str::lines` is
`rustLines`, `str::trim_start` is `trimStartC` (whitespace per
`Char.isWhitespace`, which agrees with Rust on the ASCII whitespace that
actually occurs in status reports), and `str::strip_prefix` is `stripPfx`.

Fallible operations — places where the Rust code can panic (`unwrap`,
`expect`, index out of range, `usize` subtraction overflow) — return
`Option`, with `none` standing for the panic.
-/

set_option maxRecDepth 100000

abbrev Str := List Char

/-- Rust `str::trim_start`: drop leading whitespace characters. -/
def trimStartC (s : Str) : Str := s.dropWhile Char.isWhitespace

/-- Remove a single trailing carriage return, as Rust `str::lines` does
to each produced line. -/
def stripCr (l : Str) : Str := if l.getLast? = some '\r' then l.dropLast else l

/-- Split a character list at every newline; always returns at least one
(possibly empty) chunk. -/
def splitNl : Str → List Str
  | [] => [[]]
  | c :: rest =>
    if c = '\n' then [] :: splitNl rest
    else
      match splitNl rest with
      | [] => [[c]]
      | l :: ls => (c :: l) :: ls

/-- Rust `str::lines`: split at newlines, omit the final empty chunk that a
trailing newline would create, and strip one trailing `\r` from each line. -/
def rustLines (s : Str) : List Str :=
  let parts := splitNl s
  (if parts.getLast? = some ([] : Str) then parts.dropLast else parts).map stripCr

/-- Rust `str::strip_prefix` (also nom's `tag` combinator): `some` of the
remainder when the first argument is a prefix of the second, else `none`. -/
def stripPfx : Str → Str → Option Str
  | [], s => some s
  | _ :: _, [] => none
  | p :: ps, c :: cs => if p = c then stripPfx ps cs else none

/-- `struct Item { path: String, expanded: bool }` from src/main.rs. -/
structure Item where
  path : Str
  expanded : Bool
deriving DecidableEq

/-- `Item::new`: a collapsed item for a path. -/
def Item.new (path : Str) : Item := ⟨path, false⟩

/-- `struct Status` from src/main.rs: branch name, the three sections, and
the single cursor over their concatenation. -/
structure Status where
  branch : Str
  untracked : List Item
  unstaged : List Item
  staged : List Item
  cursor : Nat
deriving DecidableEq

/-- `Status::len`: total number of entries across the three sections. -/
def Status.len (st : Status) : Nat :=
  st.untracked.length + st.unstaged.length + st.staged.length

def onBranchTag : Str := "On branch ".data

def untrackedMarker : Str := "Untracked files:".data

def stagedMarker : Str := "Changes to be committed:".data

def modifiedTag : Str := "modified:".data

def newFileTag : Str := "new file:".data

/-- One staged-section entry line, from src/main.rs lines 107-112:
trim leading whitespace, strip `"modified:"`, or failing that `"new file:"`
(whose failure is an `unwrap` panic, here `none`), then trim the remainder's
leading whitespace. -/
def parseStagedLine (line : Str) : Option Str :=
  match stripPfx modifiedTag (trimStartC line) with
  | some r => some (trimStartC r)
  | none =>
    match stripPfx newFileTag (trimStartC line) with
    | some r => some (trimStartC r)
    | none => none

/-- Control state of the line scan in `Status::fetch`: at the top level,
about to skip a section's explanatory line, or inside a section body.
The nested `while let` loops of the source consume the same line iterator,
so they are one state machine over the remaining lines. -/
inductive ScanMode
  | top
  | skipU
  | skipS
  | inU
  | inS
deriving DecidableEq

/-- The marker-scan loop of `Status::fetch` (src/main.rs lines 92-115),
accumulating untracked and staged items in order.  `none` models the
panics: `lines.next().unwrap()` after a marker at end of input, and a
staged line with neither recognized label. -/
def scanGo : List Str → ScanMode → List Item → List Item → Option (List Item × List Item)
  | [], .top, u, s => some (u, s)
  | [], .skipU, _, _ => none
  | [], .skipS, _, _ => none
  | [], .inU, u, s => some (u, s)
  | [], .inS, u, s => some (u, s)
  | line :: rest, .top, u, s =>
    if line = untrackedMarker then scanGo rest .skipU u s
    else if line = stagedMarker then scanGo rest .skipS u s
    else scanGo rest .top u s
  | _ :: rest, .skipU, u, s => scanGo rest .inU u s
  | _ :: rest, .skipS, u, s => scanGo rest .inS u s
  | line :: rest, .inU, u, s =>
    if line = ([] : Str) then scanGo rest .top u s
    else scanGo rest .inU (u ++ [Item.new (trimStartC line)]) s
  | line :: rest, .inS, u, s =>
    if line = ([] : Str) then scanGo rest .top u s
    else
      match parseStagedLine line with
      | none => none
      | some p => scanGo rest .inS u (s ++ [Item.new p])

/-- The parsing logic of `Status::fetch` (src/main.rs lines 83-122), applied
to the raw status report text: first line must extend `"On branch "` (nom
`tag`, whose failure the source `unwrap`s), the rest is scanned for section
markers; `unstaged` is never populated and the cursor starts at 0
(`..Default::default()`). -/
def parseStatus (input : Str) : Option Status :=
  match rustLines input with
  | [] => none
  | branchLine :: rest =>
    match stripPfx onBranchTag branchLine with
    | none => none
    | some branch =>
      (scanGo rest .top [] []).map fun p =>
        { branch := branch, untracked := p.1, unstaged := [], staged := p.2, cursor := 0 }

/-- The `'j'`/Down branch of the event loop (src/main.rs lines 243-248):
increment the cursor and clamp to `len - 1`.  When `len = 0` the source
computes `0usize - 1`, an arithmetic overflow (panic in debug builds,
wrap to `usize::MAX` in release builds): modelled as `none`. -/
def moveDown (st : Status) : Option Status :=
  let c := st.cursor + 1
  if c ≥ st.len then
    match st.len with
    | 0 => none
    | n + 1 => some { st with cursor := n }
  else some { st with cursor := c }

/-- The `'k'`/Up branch of the event loop (src/main.rs lines 249-251):
`cursor.checked_sub(1).unwrap_or(0)`, which is exactly truncated `Nat`
subtraction. -/
def moveUp (st : Status) : Status := { st with cursor := st.cursor - 1 }

/-- Flip the `expanded` flag of the item at an index (in-range use only;
out of range it is the identity). -/
def toggleAt : List Item → Nat → List Item
  | [], _ => []
  | x :: xs, 0 => ⟨x.path, !x.expanded⟩ :: xs
  | x :: xs, n + 1 => x :: toggleAt xs n

/-- `Status::expand` (src/main.rs lines 125-138): route the cursor through
untracked, then unstaged, then staged, toggling the addressed entry.
The final `self.staged[index]` panics when the index is out of range
(the only branch that can): modelled as `none`. -/
def expand (st : Status) : Option Status :=
  if st.cursor ≥ st.untracked.length then
    let i1 := st.cursor - st.untracked.length
    if i1 ≥ st.unstaged.length then
      let i2 := i1 - st.unstaged.length
      if i2 < st.staged.length then
        some { st with staged := toggleAt st.staged i2 }
      else none
    else some { st with unstaged := toggleAt st.unstaged i1 }
  else some { st with untracked := toggleAt st.untracked st.cursor }

/-- Which of the three sections an index addresses. -/
inductive Sect
  | untracked
  | unstaged
  | staged
deriving DecidableEq

/-- The cursor-to-entry arithmetic of `Status::expand`, as a mapping from a
global index to a section and a local index. -/
def indexToEntry (st : Status) (i : Nat) : Sect × Nat :=
  if i ≥ st.untracked.length then
    let i1 := i - st.untracked.length
    if i1 ≥ st.unstaged.length then (.staged, i1 - st.unstaged.length)
    else (.unstaged, i1)
  else (.untracked, i)

/-- Look up a section-local address in a snapshot. -/
def sectGet (st : Status) : Sect × Nat → Option Item
  | (.untracked, j) => st.untracked[j]?
  | (.unstaged, j) => st.unstaged[j]?
  | (.staged, j) => st.staged[j]?

/-! ### Renderer

`impl fmt::Display for Item` and `impl fmt::Display for Status` write a
stream of text fragments interleaved with crossterm control codes.  The
output is modelled as a list of render tokens; each crossterm command or
attribute is one token, each written text fragment one `txt` token.  The
filesystem consulted by the expanded-entry preview (`fs::read_to_string`)
is an explicit association list from path to content; absent paths model
every read failure (missing file, permission error, non-UTF-8 content). -/

inductive RColor
  | yellow
  | darkGreen
deriving DecidableEq

inductive RTok
  | txt (s : Str)
  | moveCol0
  | setFg (c : RColor)
  | resetColor
  | attrReset
  | attrReverse
deriving DecidableEq

abbrev FS := List (Str × Str)

/-- `fs::read_to_string`: `some` content on success, `none` on any failure. -/
def readFile (fs : FS) (p : Str) : Option Str :=
  (fs.find? fun e => e.1 == p).map fun e => e.2

def glyphExpanded : Str := "⌄".data

def glyphCollapsed : Str := "›".data

def nlStr : Str := "\n".data

def plusSp : Str := "+ ".data

/-- The preview body of an expanded item: the file's lines joined with
`"\n" ++ MoveToColumn(0) ++ "+ "` (src/main.rs lines 57-60; the join
separator is built with `format!`, so it carries the control code). -/
def previewBody : List Str → List RTok
  | [] => []
  | [l] => [.txt l]
  | l :: l2 :: ls => .txt l :: .txt nlStr :: .moveCol0 :: .txt plusSp :: previewBody (l2 :: ls)

/-- `impl fmt::Display for Item` (src/main.rs lines 43-74): column reset,
expansion glyph, path; then, if expanded and the file is readable, the
preview preamble `"\n" Reset MoveToColumn(0) SetFg(DarkGreen) "+ "`
followed by the joined file lines.  An unreadable file renders nothing
further (`if let Ok(..)` silently skips). -/
def itemRender (fs : FS) (it : Item) : List RTok :=
  [.moveCol0, .txt (if it.expanded then glyphExpanded else glyphCollapsed), .txt it.path]
    ++ (if it.expanded then
          match readFile fs it.path with
          | some content =>
            [.txt nlStr, .attrReset, .moveCol0, .setFg .darkGreen, .txt plusSp]
              ++ previewBody (rustLines content)
          | none => []
        else [])

def indentSp : Str := "    ".data

/-- One section's rows in `impl fmt::Display for Status`: for the item at
global index `idx`, an inverse-video attribute when the cursor sits on it,
then column reset, four-space indent, the item's own rendering, attribute
reset, newline. -/
def renderRows (fs : FS) : List Item → Nat → Nat → List RTok
  | [], _, _ => []
  | it :: rest, cur, idx =>
    (if cur = idx then [RTok.attrReverse] else [])
      ++ [RTok.moveCol0, RTok.txt indentSp] ++ itemRender fs it
      ++ [RTok.attrReset, RTok.txt nlStr]
      ++ renderRows fs rest cur (idx + 1)

def changedHeader : Str := "Changed files:".data

def stagedHeader : Str := "Staged for commit:".data

/-- `impl fmt::Display for Status` (src/main.rs lines 145-217): branch
line, then the three sections — untracked, unstaged ("Changed files:"),
staged — each a colored header followed by its rows, with the cursor
compared against the global index (local index plus the lengths of the
preceding sections). -/
def statusRender (fs : FS) (st : Status) : List RTok :=
  [.moveCol0, .txt (onBranchTag ++ st.branch ++ nlStr ++ nlStr)]
    ++ [.moveCol0, .setFg .yellow, .txt untrackedMarker, .resetColor, .txt nlStr]
    ++ renderRows fs st.untracked st.cursor 0
    ++ [.txt nlStr, .moveCol0, .setFg .yellow, .txt changedHeader, .resetColor, .txt nlStr]
    ++ renderRows fs st.unstaged st.cursor st.untracked.length
    ++ [.txt nlStr, .moveCol0, .setFg .yellow, .txt stagedHeader, .resetColor, .txt nlStr]
    ++ renderRows fs st.staged st.cursor (st.untracked.length + st.unstaged.length)

/-! ### Well-formed report fixtures

Constructed inputs for the round-trip and scan properties. -/

/-- A line is clean when it contains no newline and no carriage return, so
that `rustLines` of a joined report reproduces it exactly. -/
def cleanLine (l : Str) : Bool := l.all fun c => !(c == '\n' || c == '\r')

/-- Join lines, terminating each with a newline. -/
def unlines (ls : List Str) : Str := ls.foldr (fun l acc => l ++ '\n' :: acc) []

def sp2 : Str := "  ".data

def sp3 : Str := "   ".data

def hintLine : Str := "  (use ...)".data

/-- A staged-section entry line of a report: two-space indent, the
`new file:` label when the flag is set (else `modified:`), three spaces,
then the path. -/
def stagedLine (e : Bool × Str) : Str :=
  sp2 ++ (if e.1 then newFileTag else modifiedTag) ++ sp3 ++ e.2

/-- The lines of a well-formed status report: branch line, blank line,
then an untracked block and a staged block, each present exactly when
nonempty, in the shape of §6 of the spec. -/
def reportLines (b : Str) (u : List Str) (s : List (Bool × Str)) : List Str :=
  ((onBranchTag ++ b) :: ([] : Str) :: [])
    ++ (if u = [] then [] else untrackedMarker :: hintLine :: u.map (sp2 ++ ·) ++ [([] : Str)])
    ++ (if s = [] then [] else stagedMarker :: hintLine :: s.map stagedLine ++ [([] : Str)])

/-- A well-formed status report as raw text. -/
def mkReport (b : Str) (u : List Str) (s : List (Bool × Str)) : Str :=
  unlines (reportLines b u s)

/-- One block of report lines as seen by the marker-scan loop: an
untracked section, a staged section, or a single non-marker line. -/
inductive Block
  | ub (hint : Str) (body : List Str)
  | sb (hint : Str) (body : List Str)
  | plain (line : Str)
deriving DecidableEq

/-- The lines a block contributes to the report. -/
def blockLines : Block → List Str
  | .ub h body => untrackedMarker :: h :: body ++ [([] : Str)]
  | .sb h body => stagedMarker :: h :: body ++ [([] : Str)]
  | .plain l => [l]

/-- Side conditions under which a block is consumed cleanly: section bodies
have no blank line (a blank ends the section) and staged bodies parse;
a plain line is not a section marker. -/
def blockOk : Block → Bool
  | .ub _ body => body.all fun l => !l.isEmpty
  | .sb _ body => body.all fun l => !l.isEmpty && (parseStagedLine l).isSome
  | .plain l => !(l == untrackedMarker) && !(l == stagedMarker)

/-- The untracked items a block contributes. -/
def blockU : Block → List Item
  | .ub _ body => body.map fun l => Item.new (trimStartC l)
  | _ => []

/-- The staged items a block contributes. -/
def blockS : Block → List Item
  | .sb _ body => body.map fun l => Item.new ((parseStagedLine l).getD [])
  | _ => []

/-- The blocks making up the tail of a well-formed report (everything after
the branch line): the mandatory blank line, then the two optional sections. -/
def reportBlocks (u : List Str) (s : List (Bool × Str)) : List Block :=
  Block.plain [] ::
    ((if u = [] then [] else [Block.ub hintLine (u.map (sp2 ++ ·))])
      ++ (if s = [] then [] else [Block.sb hintLine (s.map stagedLine)]))

/-! ### Lemmas about the string primitives -/

theorem stripPfx_append (p s : Str) : stripPfx p (p ++ s) = some s := by
  induction p with
  | nil => rfl
  | cons c cs ih => simp [stripPfx, ih]

theorem trimStartC_cons_ws {c : Char} (h : c.isWhitespace = true) (t : Str) :
    trimStartC (c :: t) = trimStartC t := by
  simp [trimStartC, List.dropWhile, h]

theorem trimStartC_cons_no_ws {c : Char} (h : c.isWhitespace = false) (t : Str) :
    trimStartC (c :: t) = c :: t := by
  simp [trimStartC, List.dropWhile, h]

theorem splitNl_ne_nil (s : Str) : splitNl s ≠ [] := by
  match s with
  | [] => simp [splitNl]
  | c :: rest =>
    rw [splitNl]
    split
    · simp
    · split <;> simp

theorem splitNl_append_nl {l : Str} (h : '\n' ∉ l) (t : Str) :
    splitNl (l ++ '\n' :: t) = l :: splitNl t := by
  induction l with
  | nil => simp [splitNl]
  | cons c cs ih =>
    have hc : ¬(c = '\n') := fun he => h (he ▸ List.mem_cons_self c cs)
    have ih' := ih (fun hm => h (List.mem_cons_of_mem c hm))
    rw [List.cons_append, splitNl, if_neg hc, ih']

theorem splitNl_unlines {ls : List Str} (h : ∀ l ∈ ls, '\n' ∉ l) :
    splitNl (unlines ls) = ls ++ [([] : Str)] := by
  induction ls with
  | nil => rfl
  | cons l rest ih =>
    have hl : '\n' ∉ l := h l (List.mem_cons_self l rest)
    have ih' := ih fun x hx => h x (List.mem_cons_of_mem l hx)
    show splitNl (l ++ '\n' :: unlines rest) = (l :: rest) ++ [([] : Str)]
    rw [splitNl_append_nl hl, ih']
    rfl

theorem mem_of_getLast?_eq : ∀ (l : Str) (a : Char), l.getLast? = some a → a ∈ l
  | [], _, h => by simp at h
  | [x], a, h => by
    simp [List.getLast?_singleton] at h
    simp [h]
  | x :: y :: t, a, h => by
    rw [List.getLast?_cons_cons] at h
    exact List.mem_cons_of_mem _ (mem_of_getLast?_eq (y :: t) a h)

theorem stripCr_eq_self {l : Str} (h : '\r' ∉ l) : stripCr l = l := by
  unfold stripCr
  split
  · next he => exact absurd (mem_of_getLast?_eq l '\r' he) h
  · rfl

theorem cleanLine_no_nl {l : Str} (h : cleanLine l = true) : '\n' ∉ l := by
  intro hm
  have := List.all_eq_true.mp h _ hm
  simp at this

theorem cleanLine_no_cr {l : Str} (h : cleanLine l = true) : '\r' ∉ l := by
  intro hm
  have := List.all_eq_true.mp h _ hm
  simp at this

theorem rustLines_unlines {ls : List Str} (h : ∀ l ∈ ls, cleanLine l = true) :
    rustLines (unlines ls) = ls := by
  unfold rustLines
  rw [splitNl_unlines fun l hl => cleanLine_no_nl (h l hl)]
  dsimp only
  rw [List.getLast?_concat, if_pos rfl, List.dropLast_concat]
  have := List.map_congr_left fun l hl => stripCr_eq_self (cleanLine_no_cr (h l hl))
  simpa using this

/-! ### Lemmas about the section scan -/

theorem scanGo_top_cons (line : Str) (rest : List Str) (u s : List Item) :
    scanGo (line :: rest) ScanMode.top u s
      = if line = untrackedMarker then scanGo rest ScanMode.skipU u s
        else if line = stagedMarker then scanGo rest ScanMode.skipS u s
        else scanGo rest ScanMode.top u s := rfl

theorem scanGo_skipU_cons (line : Str) (rest : List Str) (u s : List Item) :
    scanGo (line :: rest) ScanMode.skipU u s = scanGo rest ScanMode.inU u s := rfl

theorem scanGo_skipS_cons (line : Str) (rest : List Str) (u s : List Item) :
    scanGo (line :: rest) ScanMode.skipS u s = scanGo rest ScanMode.inS u s := rfl

theorem scanGo_inU_cons (line : Str) (rest : List Str) (u s : List Item) :
    scanGo (line :: rest) ScanMode.inU u s
      = if line = ([] : Str) then scanGo rest ScanMode.top u s
        else scanGo rest ScanMode.inU (u ++ [Item.new (trimStartC line)]) s := rfl

theorem scanGo_inS_cons (line : Str) (rest : List Str) (u s : List Item) :
    scanGo (line :: rest) ScanMode.inS u s
      = if line = ([] : Str) then scanGo rest ScanMode.top u s
        else
          match parseStagedLine line with
          | none => none
          | some p => scanGo rest ScanMode.inS u (s ++ [Item.new p]) := rfl

theorem scanGo_inU_body (body : List Str) (h : ∀ l ∈ body, l ≠ ([] : Str)) :
    ∀ (rest : List Str) (u s : List Item),
    scanGo (body ++ ([] : Str) :: rest) ScanMode.inU u s
      = scanGo rest ScanMode.top (u ++ body.map fun l => Item.new (trimStartC l)) s := by
  induction body with
  | nil => intro rest u s; simp [scanGo_inU_cons]
  | cons l b ih =>
    intro rest u s
    have hl : ¬(l = ([] : Str)) := h l (List.mem_cons_self l b)
    rw [List.cons_append, scanGo_inU_cons, if_neg hl,
      ih (fun x hx => h x (List.mem_cons_of_mem l hx))]
    simp

theorem scanGo_inS_body (body : List Str)
    (h : ∀ l ∈ body, l ≠ ([] : Str) ∧ (parseStagedLine l).isSome = true) :
    ∀ (rest : List Str) (u s : List Item),
    scanGo (body ++ ([] : Str) :: rest) ScanMode.inS u s
      = scanGo rest ScanMode.top u
          (s ++ body.map fun l => Item.new ((parseStagedLine l).getD [])) := by
  induction body with
  | nil => intro rest u s; simp [scanGo_inS_cons]
  | cons l b ih =>
    intro rest u s
    obtain ⟨hl, hsome⟩ := h l (List.mem_cons_self l b)
    obtain ⟨p, hp⟩ := Option.isSome_iff_exists.mp hsome
    rw [List.cons_append, scanGo_inS_cons, if_neg hl, hp]
    show scanGo (b ++ ([] : Str) :: rest) ScanMode.inS u (s ++ [Item.new p]) = _
    rw [ih (fun x hx => h x (List.mem_cons_of_mem l hx))]
    simp [hp]

theorem scanGo_block (b : Block) (hb : blockOk b = true) (rest : List Str) (u s : List Item) :
    scanGo (blockLines b ++ rest) ScanMode.top u s
      = scanGo rest ScanMode.top (u ++ blockU b) (s ++ blockS b) := by
  match b with
  | .plain l =>
    simp only [blockOk, Bool.and_eq_true, Bool.not_eq_true', beq_eq_false_iff_ne] at hb
    simp [blockLines, blockU, blockS, scanGo_top_cons, hb.1, hb.2]
  | .ub hint body =>
    have hbody : ∀ l ∈ body, l ≠ ([] : Str) := by
      intro l hl
      have := List.all_eq_true.mp hb l hl
      simpa [List.isEmpty_iff] using this
    show scanGo ((untrackedMarker :: hint :: body ++ [([] : Str)]) ++ rest) ScanMode.top u s = _
    rw [List.cons_append, List.cons_append, List.append_assoc, List.singleton_append]
    rw [scanGo_top_cons, if_pos rfl, List.cons_append, scanGo_skipU_cons]
    rw [scanGo_inU_body body hbody rest u s]
    simp [blockU, blockS]
  | .sb hint body =>
    have hbody : ∀ l ∈ body, l ≠ ([] : Str) ∧ (parseStagedLine l).isSome = true := by
      intro l hl
      have := List.all_eq_true.mp hb l hl
      simpa [List.isEmpty_iff] using this
    show scanGo ((stagedMarker :: hint :: body ++ [([] : Str)]) ++ rest) ScanMode.top u s = _
    rw [List.cons_append, List.cons_append, List.append_assoc, List.singleton_append]
    have hms : ¬(stagedMarker = untrackedMarker) := by decide
    rw [scanGo_top_cons, if_neg hms, if_pos rfl, List.cons_append, scanGo_skipS_cons]
    rw [scanGo_inS_body body hbody rest u s]
    simp [blockU, blockS]

theorem scanGo_blocks (bs : List Block) (hbs : ∀ b ∈ bs, blockOk b = true) :
    ∀ u s, scanGo ((bs.map blockLines).flatten) ScanMode.top u s
      = some (u ++ (bs.map blockU).flatten, s ++ (bs.map blockS).flatten) := by
  induction bs with
  | nil => intro u s; simp [scanGo]
  | cons b bs ih =>
    intro u s
    rw [List.map_cons, List.flatten_cons,
      scanGo_block b (hbs b (List.mem_cons_self b bs)),
      ih (fun x hx => hbs x (List.mem_cons_of_mem b hx))]
    simp

/-! ### Lemmas about staged-line parsing -/

theorem stripPfx_cons_cons (p c : Char) (ps cs : Str) :
    stripPfx (p :: ps) (c :: cs) = if p = c then stripPfx ps cs else none := rfl

theorem trimStartC_sp2 (x : Str) : trimStartC (sp2 ++ x) = trimStartC x := by
  show trimStartC (' ' :: ' ' :: x) = trimStartC x
  rw [trimStartC_cons_ws (by decide), trimStartC_cons_ws (by decide)]

theorem trimStartC_sp3 (x : Str) : trimStartC (sp3 ++ x) = trimStartC x := by
  show trimStartC (' ' :: ' ' :: ' ' :: x) = trimStartC x
  rw [trimStartC_cons_ws (by decide), trimStartC_cons_ws (by decide),
    trimStartC_cons_ws (by decide)]

theorem trimStartC_modTag (x : Str) : trimStartC (modifiedTag ++ x) = modifiedTag ++ x := by
  show trimStartC ('m' :: ("odified:".data ++ x)) = 'm' :: ("odified:".data ++ x)
  rw [trimStartC_cons_no_ws (by decide)]

theorem trimStartC_nfTag (x : Str) : trimStartC (newFileTag ++ x) = newFileTag ++ x := by
  show trimStartC ('n' :: ("ew file:".data ++ x)) = 'n' :: ("ew file:".data ++ x)
  rw [trimStartC_cons_no_ws (by decide)]

theorem stripPfx_mod_nf (x : Str) : stripPfx modifiedTag (newFileTag ++ x) = none := by
  show stripPfx ('m' :: "odified:".data) ('n' :: ("ew file:".data ++ x)) = none
  rw [stripPfx_cons_cons, if_neg (by decide)]

theorem parseStagedLine_mk (e : Bool × Str) (hp : trimStartC e.2 = e.2) :
    parseStagedLine (stagedLine e) = some e.2 := by
  obtain ⟨f, p⟩ := e
  have h3 : trimStartC (sp3 ++ p) = p := by rw [trimStartC_sp3]; exact hp
  cases f with
  | false =>
    show parseStagedLine (sp2 ++ (modifiedTag ++ (sp3 ++ p))) = some p
    unfold parseStagedLine
    rw [trimStartC_sp2, trimStartC_modTag, stripPfx_append]
    show some (trimStartC (sp3 ++ p)) = some p
    rw [h3]
  | true =>
    show parseStagedLine (sp2 ++ (newFileTag ++ (sp3 ++ p))) = some p
    unfold parseStagedLine
    rw [trimStartC_sp2, trimStartC_nfTag, stripPfx_mod_nf, stripPfx_append]
    show some (trimStartC (sp3 ++ p)) = some p
    rw [h3]

/-! ### Lemmas about well-formed report fixtures -/

theorem cleanLine_append {x y : Str} (hx : cleanLine x = true) (hy : cleanLine y = true) :
    cleanLine (x ++ y) = true := by
  unfold cleanLine at *
  rw [List.all_append, hx, hy]
  rfl

theorem stagedLine_clean {e : Bool × Str} (he : cleanLine e.2 = true) :
    cleanLine (stagedLine e) = true := by
  obtain ⟨f, p⟩ := e
  cases f with
  | false =>
    show cleanLine (sp2 ++ (modifiedTag ++ (sp3 ++ p))) = true
    exact cleanLine_append (by decide) (cleanLine_append (by decide)
      (cleanLine_append (by decide) he))
  | true =>
    show cleanLine (sp2 ++ (newFileTag ++ (sp3 ++ p))) = true
    exact cleanLine_append (by decide) (cleanLine_append (by decide)
      (cleanLine_append (by decide) he))

theorem reportLines_eq (b : Str) (u : List Str) (s : List (Bool × Str)) :
    reportLines b u s = (onBranchTag ++ b) :: ((reportBlocks u s).map blockLines).flatten := by
  unfold reportLines reportBlocks
  by_cases hU : u = [] <;> by_cases hS : s = [] <;>
    simp [hU, hS, blockLines]

theorem reportLines_clean {b : Str} {u : List Str} {s : List (Bool × Str)}
    (hb : cleanLine b = true)
    (hu : ∀ p ∈ u, cleanLine p = true) (hs : ∀ e ∈ s, cleanLine e.2 = true) :
    ∀ l ∈ reportLines b u s, cleanLine l = true := by
  intro l hl
  unfold reportLines at hl
  rcases List.mem_append.mp hl with hAB | hC
  case _ =>
    rcases List.mem_append.mp hAB with hA | hB
    case _ =>
      rcases List.mem_cons.mp hA with h | h
      · exact h ▸ cleanLine_append (by decide) hb
      · rcases List.mem_cons.mp h with h2 | h2
        · exact h2 ▸ (by decide)
        · exact absurd h2 (List.not_mem_nil l)
    case _ =>
      by_cases hU : u = []
      · rw [if_pos hU] at hB
        exact absurd hB (List.not_mem_nil l)
      · rw [if_neg hU] at hB
        rcases List.mem_append.mp hB with h | h
        · rcases List.mem_cons.mp h with h2 | h2
          · exact h2 ▸ (by decide)
          · rcases List.mem_cons.mp h2 with h3 | h3
            · exact h3 ▸ (by decide)
            · obtain ⟨p, hp, hf⟩ := List.mem_map.mp h3
              exact hf ▸ cleanLine_append (by decide) (hu p hp)
        · rcases List.mem_cons.mp h with h2 | h2
          · exact h2 ▸ (by decide)
          · exact absurd h2 (List.not_mem_nil l)
  case _ =>
    by_cases hS : s = []
    · rw [if_pos hS] at hC
      exact absurd hC (List.not_mem_nil l)
    · rw [if_neg hS] at hC
      rcases List.mem_append.mp hC with h | h
      · rcases List.mem_cons.mp h with h2 | h2
        · exact h2 ▸ (by decide)
        · rcases List.mem_cons.mp h2 with h3 | h3
          · exact h3 ▸ (by decide)
          · obtain ⟨e, he, hf⟩ := List.mem_map.mp h3
            exact hf ▸ stagedLine_clean (hs e he)
      · rcases List.mem_cons.mp h with h2 | h2
        · exact h2 ▸ (by decide)
        · exact absurd h2 (List.not_mem_nil l)

theorem ubBlock_items (u : List Str) (hu : ∀ p ∈ u, trimStartC p = p) :
    blockU (Block.ub hintLine (u.map (sp2 ++ ·))) = u.map Item.new := by
  show (u.map (sp2 ++ ·)).map (fun l => Item.new (trimStartC l)) = u.map Item.new
  rw [List.map_map]
  exact List.map_congr_left fun p hp => by
    show Item.new (trimStartC (sp2 ++ p)) = Item.new p
    rw [trimStartC_sp2, hu p hp]

theorem sbBlock_items (s : List (Bool × Str)) (hs : ∀ e ∈ s, trimStartC e.2 = e.2) :
    blockS (Block.sb hintLine (s.map stagedLine)) = s.map fun e => Item.new e.2 := by
  show (s.map stagedLine).map (fun l => Item.new ((parseStagedLine l).getD [])) = _
  rw [List.map_map]
  exact List.map_congr_left fun e he => by
    show Item.new ((parseStagedLine (stagedLine e)).getD []) = Item.new e.2
    rw [parseStagedLine_mk e (hs e he)]
    rfl

theorem reportBlocks_ok (u : List Str) (s : List (Bool × Str))
    (hs : ∀ e ∈ s, trimStartC e.2 = e.2) :
    ∀ blk ∈ reportBlocks u s, blockOk blk = true := by
  intro blk hblk
  unfold reportBlocks at hblk
  rcases List.mem_cons.mp hblk with h | h
  · subst h; decide
  · rcases List.mem_append.mp h with h2 | h2
    · by_cases hU : u = []
      · rw [if_pos hU] at h2; exact absurd h2 (List.not_mem_nil blk)
      · rw [if_neg hU] at h2
        rw [List.mem_singleton.mp h2]
        show (u.map (sp2 ++ ·)).all (fun l => !l.isEmpty) = true
        rw [List.all_eq_true]
        intro l hl
        obtain ⟨p, _, hf⟩ := List.mem_map.mp hl
        subst hf
        rfl
    · by_cases hS : s = []
      · rw [if_pos hS] at h2; exact absurd h2 (List.not_mem_nil blk)
      · rw [if_neg hS] at h2
        rw [List.mem_singleton.mp h2]
        show (s.map stagedLine).all (fun l => !l.isEmpty && (parseStagedLine l).isSome) = true
        rw [List.all_eq_true]
        intro l hl
        obtain ⟨e, he, hf⟩ := List.mem_map.mp hl
        subst hf
        rw [parseStagedLine_mk e (hs e he)]
        rfl

theorem reportBlocks_untracked (u : List Str) (s : List (Bool × Str))
    (hu : ∀ p ∈ u, trimStartC p = p) :
    (((reportBlocks u s).map blockU).flatten) = u.map Item.new := by
  have key : ∀ a ∈ u, Item.new (trimStartC (sp2 ++ a)) = Item.new a := by
    intro a ha
    rw [trimStartC_sp2, hu a ha]
  unfold reportBlocks
  by_cases hU : u = [] <;> by_cases hS : s = [] <;>
    simp [hU, hS, blockU, blockS] <;> exact key

theorem reportBlocks_staged (u : List Str) (s : List (Bool × Str))
    (hs : ∀ e ∈ s, trimStartC e.2 = e.2) :
    (((reportBlocks u s).map blockS).flatten) = s.map fun e => Item.new e.2 := by
  have key1 : ∀ (p : Str), (false, p) ∈ s →
      Item.new ((parseStagedLine (stagedLine (false, p))).getD []) = Item.new p := by
    intro p hp
    rw [parseStagedLine_mk (false, p) (hs (false, p) hp)]
    rfl
  have key2 : ∀ (p : Str), (true, p) ∈ s →
      Item.new ((parseStagedLine (stagedLine (true, p))).getD []) = Item.new p := by
    intro p hp
    rw [parseStagedLine_mk (true, p) (hs (true, p) hp)]
    rfl
  unfold reportBlocks
  by_cases hU : u = [] <;> by_cases hS : s = [] <;>
    simp [hU, hS, blockU, blockS] <;> exact ⟨key1, key2⟩

/-- C1: for every well-formed status report, the parser recovers the exact
branch name and the exact ordered path lists of the untracked and staged
sections (round-trip over `mkReport` fixtures); the witness instantiates
this at the input
`"On branch main\n\nUntracked files:\n  (use ...)\n  a.txt\n  b.txt\n\n"`,
which parses to branch `main`, untracked `[a.txt, b.txt]`, staged `[]`,
cursor `0`. -/
theorem statusParser_roundTrip (b : Str) (u : List Str) (s : List (Bool × Str))
    (hb : cleanLine b = true)
    (hu : ∀ p ∈ u, cleanLine p = true ∧ trimStartC p = p)
    (hs : ∀ e ∈ s, cleanLine e.2 = true ∧ trimStartC e.2 = e.2) :
    parseStatus (mkReport b u s)
      = some { branch := b, untracked := u.map Item.new, unstaged := [],
               staged := s.map (fun e => Item.new e.2), cursor := 0 } := by
  have hlines : rustLines (mkReport b u s)
      = (onBranchTag ++ b) :: ((reportBlocks u s).map blockLines).flatten := by
    unfold mkReport
    rw [rustLines_unlines (reportLines_clean hb (fun p hp => (hu p hp).1)
      (fun e he => (hs e he).1))]
    exact reportLines_eq b u s
  unfold parseStatus
  rw [hlines]
  dsimp only
  rw [stripPfx_append]
  dsimp only
  rw [scanGo_blocks (reportBlocks u s) (reportBlocks_ok u s (fun e he => (hs e he).2)) [] []]
  rw [Option.map_some']
  dsimp only
  rw [List.nil_append, List.nil_append,
    reportBlocks_untracked u s (fun p hp => (hu p hp).2),
    reportBlocks_staged u s (fun e he => (hs e he).2)]

/-! ### Lemmas about toggling and rendering -/

theorem toggleAt_length (l : List Item) (i : Nat) : (toggleAt l i).length = l.length := by
  induction l generalizing i with
  | nil => rfl
  | cons x xs ih =>
    cases i with
    | zero => rfl
    | succ n => simp [toggleAt, ih]

theorem toggleAt_toggleAt (l : List Item) (i : Nat) : toggleAt (toggleAt l i) i = l := by
  induction l generalizing i with
  | nil => rfl
  | cons x xs ih =>
    cases i with
    | zero => simp [toggleAt]
    | succ n => simp [toggleAt, ih]

theorem itemRender_collapsed (fs : FS) (it : Item) (h : it.expanded = false) :
    itemRender fs it = [.moveCol0, .txt glyphCollapsed, .txt it.path] := by
  simp [itemRender, h]

theorem renderRows_fs_indep (fs₁ fs₂ : FS) (l : List Item) (cur idx : Nat)
    (h : ∀ it ∈ l, it.expanded = false) :
    renderRows fs₁ l cur idx = renderRows fs₂ l cur idx := by
  induction l generalizing idx with
  | nil => rfl
  | cons it rest ih =>
    have hit := h it (List.mem_cons_self it rest)
    rw [renderRows, renderRows,
      itemRender_collapsed fs₁ it hit, itemRender_collapsed fs₂ it hit,
      ih (idx + 1) (fun x hx => h x (List.mem_cons_of_mem it hx))]

/-! ### Claim theorems -/

/-- C1 witness: concrete scenario 1 of the spec, obtained from
`statusParser_roundTrip` at branch `main`, untracked `[a.txt, b.txt]`,
staged `[]`. -/
theorem statusParser_roundTrip_witness :
    parseStatus ("On branch main\n\nUntracked files:\n  (use ...)\n  a.txt\n  b.txt\n\n").data
      = some { branch := "main".data,
               untracked := [Item.new "a.txt".data, Item.new "b.txt".data],
               unstaged := [], staged := [], cursor := 0 } := by
  have h := statusParser_roundTrip "main".data ["a.txt".data, "b.txt".data] []
    (by decide) (by decide) (by decide)
  have e : mkReport "main".data ["a.txt".data, "b.txt".data] [] =
      ("On branch main\n\nUntracked files:\n  (use ...)\n  a.txt\n  b.txt\n\n").data := by decide
  rw [e] at h
  simpa using h

/-- C2 (evidence for the code defect): on a snapshot with `total = 0` the
`'j'`/Down handler executes `status.len() - 1` with `len() = 0`, a `usize`
overflow (panic in debug, wrap to `2^64 - 1` in release) instead of the
claimed clamp leaving the cursor at 0. -/
theorem moveDown_empty_total_faults :
    moveDown { branch := [], untracked := [], unstaged := [], staged := [], cursor := 0 } = none
      ∧ Status.len { branch := [], untracked := [], unstaged := [], staged := [], cursor := 0 } = 0 :=
  ⟨rfl, rfl⟩

/-- C3 (evidence for the code defect): on an all-empty snapshot the
expansion toggle reaches `self.staged[0]` with `staged` empty — an
out-of-range panic, not a no-op — while `moveUp` alone is a safe no-op. -/
theorem expand_empty_total_faults :
    expand { branch := [], untracked := [], unstaged := [], staged := [], cursor := 0 } = none
      ∧ moveUp { branch := [], untracked := [], unstaged := [], staged := [], cursor := 0 }
          = { branch := [], untracked := [], unstaged := [], staged := [], cursor := 0 } :=
  ⟨rfl, rfl⟩

/-- C4: for every in-range cursor value the cursor-to-entry mapping of the
expansion toggle matches direct indexing into the concatenation
`untracked ++ unstaged ++ staged` (always addressing a real entry), and it
follows exactly the claimed three-way case split, so the mapping partitions
`[0, total)` across the three sections in order. -/
theorem expansion_addressing (st : Status) (i : Nat) (h : i < st.len) :
    sectGet st (indexToEntry st i) = (st.untracked ++ st.unstaged ++ st.staged)[i]?
    ∧ ((st.untracked ++ st.unstaged ++ st.staged)[i]?).isSome = true
    ∧ (i < st.untracked.length → indexToEntry st i = (Sect.untracked, i))
    ∧ (st.untracked.length ≤ i → i - st.untracked.length < st.unstaged.length →
        indexToEntry st i = (Sect.unstaged, i - st.untracked.length))
    ∧ (st.untracked.length ≤ i → st.unstaged.length ≤ i - st.untracked.length →
        indexToEntry st i = (Sect.staged, i - st.untracked.length - st.unstaged.length)) := by
  have hlen : i < ((st.untracked ++ st.unstaged) ++ st.staged).length := by
    unfold Status.len at h
    simp [List.length_append]
    omega
  have hsome : (((st.untracked ++ st.unstaged) ++ st.staged)[i]?).isSome = true := by
    rw [List.getElem?_eq_getElem hlen]
    rfl
  rcases Nat.lt_or_ge i st.untracked.length with h1 | h1
  · have he : indexToEntry st i = (Sect.untracked, i) := by
      unfold indexToEntry
      rw [if_neg (by omega)]
    have hval : sectGet st (indexToEntry st i)
        = ((st.untracked ++ st.unstaged) ++ st.staged)[i]? := by
      rw [he]
      show st.untracked[i]? = _
      rw [List.getElem?_append_left (by simp [List.length_append]; omega),
        List.getElem?_append_left h1]
    exact ⟨hval, hsome, fun _ => he, fun hc _ => absurd hc (by omega),
      fun hc _ => absurd hc (by omega)⟩
  · rcases Nat.lt_or_ge (i - st.untracked.length) st.unstaged.length with h2 | h2
    · have he : indexToEntry st i = (Sect.unstaged, i - st.untracked.length) := by
        unfold indexToEntry
        rw [if_pos h1]
        dsimp only
        rw [if_neg (by omega)]
      have hval : sectGet st (indexToEntry st i)
          = ((st.untracked ++ st.unstaged) ++ st.staged)[i]? := by
        rw [he]
        show st.unstaged[i - st.untracked.length]? = _
        rw [List.getElem?_append_left (by simp [List.length_append]; omega),
          List.getElem?_append_right h1]
      exact ⟨hval, hsome, fun hc => absurd hc (by omega), fun _ _ => he,
        fun _ hc => absurd hc (by omega)⟩
    · have he : indexToEntry st i
          = (Sect.staged, i - st.untracked.length - st.unstaged.length) := by
        unfold indexToEntry
        rw [if_pos h1]
        dsimp only
        rw [if_pos h2]
      have hval : sectGet st (indexToEntry st i)
          = ((st.untracked ++ st.unstaged) ++ st.staged)[i]? := by
        rw [he]
        show st.staged[i - st.untracked.length - st.unstaged.length]? = _
        rw [List.getElem?_append_right (by simp [List.length_append]; omega)]
        congr 1
        simp [List.length_append]
        omega
      exact ⟨hval, hsome, fun hc => absurd hc (by omega),
        fun _ hc => absurd hc (by omega), fun _ _ => he⟩

/-- C4 witness: concrete scenario 3 of the spec — section lengths 2, 0, 3
and cursor 4 address `staged[2]`. -/
theorem expansion_addressing_witness :
    indexToEntry ⟨[], [Item.new "a".data, Item.new "b".data], [],
      [Item.new "c".data, Item.new "d".data, Item.new "e".data], 0⟩ 4
      = (Sect.staged, 2) := by
  have h := expansion_addressing ⟨[], [Item.new "a".data, Item.new "b".data], [],
    [Item.new "c".data, Item.new "d".data, Item.new "e".data], 0⟩ 4 (by decide)
  have h5 := h.2.2.2.2 (by decide) (by decide)
  simpa using h5

/-- C5: for every staged-section entry line, the parser trims leading
whitespace, strips `"modified:"` or — failing that — `"new file:"` (neither
matching is a fatal parse failure), and the leading-whitespace-trimmed
remainder becomes the path; and the concrete scenario-2 input with a
`"Changes to be committed:"` block parses to
`staged = [src/main.rs, Cargo.lock]`. -/
theorem staged_label_stripping :
    (∀ line r : Str, trimStartC line = modifiedTag ++ r →
        parseStagedLine line = some (trimStartC r))
    ∧ (∀ line r : Str, trimStartC line = newFileTag ++ r →
        parseStagedLine line = some (trimStartC r))
    ∧ (∀ line : Str, stripPfx modifiedTag (trimStartC line) = none →
        stripPfx newFileTag (trimStartC line) = none → parseStagedLine line = none)
    ∧ parseStatus ("On branch main\n\nChanges to be committed:\n  (use ...)\n  modified:   src/main.rs\n  new file:   Cargo.lock\n\n").data
        = some { branch := "main".data, untracked := [], unstaged := [],
                 staged := [Item.new "src/main.rs".data, Item.new "Cargo.lock".data],
                 cursor := 0 } := by
  refine ⟨?_, ?_, ?_, ?_⟩
  · intro line r hl
    unfold parseStagedLine
    rw [hl, stripPfx_append]
  · intro line r hl
    unfold parseStagedLine
    rw [hl, stripPfx_mod_nf, stripPfx_append]
  · intro line h1 h2
    unfold parseStagedLine
    rw [h1, h2]
  · decide

/-- C5 witness: the `"modified:"` branch applied to the concrete line
`"  modified:   src/main.rs"`. -/
theorem staged_label_stripping_witness :
    parseStagedLine ("  modified:   src/main.rs").data = some "src/main.rs".data := by
  have h := staged_label_stripping.1 ("  modified:   src/main.rs").data
    ("   src/main.rs").data (by decide)
  have e : trimStartC ("   src/main.rs").data = "src/main.rs".data := by decide
  rw [e] at h
  exact h

/-- C6: whatever the input report contains, the parsed snapshot has an
empty `unstaged` sequence — no marker ever populates it. -/
theorem parse_unstaged_empty (inp : Str) (st : Status) (h : parseStatus inp = some st) :
    st.unstaged = [] := by
  unfold parseStatus at h
  split at h
  · exact absurd h (by simp)
  · split at h
    · exact absurd h (by simp)
    · rw [Option.map_eq_some'] at h
      obtain ⟨p, _, hp⟩ := h
      rw [← hp]

/-- C6 witness: the minimal report `"On branch x\n"` parses and its
`unstaged` is empty, by `parse_unstaged_empty`. -/
theorem parse_unstaged_empty_witness :
    ∃ st, parseStatus ("On branch x\n").data = some st ∧ st.unstaged = [] := by
  have h : parseStatus ("On branch x\n").data = some ⟨"x".data, [], [], [], 0⟩ := by decide
  exact ⟨_, h, parse_unstaged_empty _ _ h⟩

/-- C7: the expansion toggle is its own inverse — if toggling at the
current cursor succeeds, toggling again restores the snapshot exactly
(same addressed entry, same `expanded` value, all else untouched). -/
theorem toggleExpand_involutive (st st' : Status) (h : expand st = some st') :
    expand st' = some st := by
  unfold expand at h ⊢
  by_cases h1 : st.cursor ≥ st.untracked.length
  · rw [if_pos h1] at h
    dsimp only at h
    by_cases h2 : st.cursor - st.untracked.length ≥ st.unstaged.length
    · rw [if_pos h2] at h
      by_cases h3 : st.cursor - st.untracked.length - st.unstaged.length < st.staged.length
      · rw [if_pos h3] at h
        have hst := Option.some.inj h
        subst hst
        try dsimp only
        rw [if_pos h1]
        try dsimp only
        rw [if_pos h2]
        try dsimp only
        simp only [toggleAt_length]
        rw [if_pos h3, toggleAt_toggleAt]
      · rw [if_neg h3] at h
        exact absurd h (by simp)
    · rw [if_neg h2] at h
      have hst := Option.some.inj h
      subst hst
      rw [if_pos h1]
      try dsimp only
      simp only [toggleAt_length]
      rw [if_neg h2, toggleAt_toggleAt]
  · rw [if_neg h1] at h
    have hst := Option.some.inj h
    subst hst
    simp only [toggleAt_length]
    rw [if_neg h1, toggleAt_toggleAt]

/-- C7 witness: toggling the only untracked entry of a one-entry snapshot
twice returns to the collapsed snapshot, by `toggleExpand_involutive`. -/
theorem toggleExpand_involutive_witness :
    expand ⟨[], [⟨"a".data, true⟩], [], [], 0⟩ = some ⟨[], [⟨"a".data, false⟩], [], [], 0⟩ :=
  toggleExpand_involutive ⟨[], [⟨"a".data, false⟩], [], [], 0⟩
    ⟨[], [⟨"a".data, true⟩], [], [], 0⟩ (by decide)

/-- C8 counterexample: the renderer is not a pure function of the snapshot
alone — with an expanded entry, the same snapshot renders differently under
two filesystem states that give the entry's file different contents. -/
theorem render_reads_fs :
    statusRender [("a".data, "x".data)] ⟨[], [⟨"a".data, true⟩], [], [], 0⟩
      ≠ statusRender [("a".data, "y".data)] ⟨[], [⟨"a".data, true⟩], [], [], 0⟩ := by
  decide

/-- C8 (amended): the renderer is a pure function of the snapshot and the
filesystem contents read for expanded previews (never mutating the
snapshot, which the embedding makes structural); in particular, for every
snapshot whose entries are all collapsed, the output is independent of the
filesystem. -/
theorem render_pure_when_collapsed (fs₁ fs₂ : FS) (st : Status)
    (h : ∀ it ∈ st.untracked ++ st.unstaged ++ st.staged, it.expanded = false) :
    statusRender fs₁ st = statusRender fs₂ st := by
  have hu : ∀ it ∈ st.untracked, it.expanded = false := fun it hit =>
    h it (List.mem_append_left _ (List.mem_append_left _ hit))
  have hv : ∀ it ∈ st.unstaged, it.expanded = false := fun it hit =>
    h it (List.mem_append_left _ (List.mem_append_right _ hit))
  have hw : ∀ it ∈ st.staged, it.expanded = false := fun it hit =>
    h it (List.mem_append_right _ hit)
  unfold statusRender
  rw [renderRows_fs_indep fs₁ fs₂ st.untracked st.cursor 0 hu,
    renderRows_fs_indep fs₁ fs₂ st.unstaged st.cursor st.untracked.length hv,
    renderRows_fs_indep fs₁ fs₂ st.staged st.cursor
      (st.untracked.length + st.unstaged.length) hw]

/-- C8 witness: a concrete all-collapsed snapshot renders identically under
an empty filesystem and one that could serve its paths. -/
theorem render_pure_when_collapsed_witness :
    statusRender [] ⟨"m".data, [Item.new "a".data], [], [Item.new "b".data], 0⟩
      = statusRender [("a".data, "z".data)]
          ⟨"m".data, [Item.new "a".data], [], [Item.new "b".data], 0⟩ :=
  render_pure_when_collapsed [] [("a".data, "z".data)]
    ⟨"m".data, [Item.new "a".data], [], [Item.new "b".data], 0⟩ (by decide)

/-- C9: rendering an expanded entry whose path cannot be read emits nothing
beyond the entry's own header row — column reset, expanded glyph, path —
and still succeeds; the read failure is absorbed inside the item renderer. -/
theorem preview_read_failure_silent (fs : FS) (it : Item) (he : it.expanded = true)
    (hr : readFile fs it.path = none) :
    itemRender fs it = [.moveCol0, .txt glyphExpanded, .txt it.path] := by
  simp [itemRender, he, hr]

/-- C9 witness: an expanded entry for a path absent from the filesystem
renders exactly its header row. -/
theorem preview_read_failure_silent_witness :
    itemRender [] ⟨"missing".data, true⟩
      = [RTok.moveCol0, RTok.txt glyphExpanded, RTok.txt "missing".data] :=
  preview_read_failure_silent [] ⟨"missing".data, true⟩ rfl rfl

/-- C10: the marker scan is position- and multiplicity-independent — for a
report tail assembled from arbitrary section blocks and non-marker lines in
any order, each block appends its entries to its section in input order, so
repeated markers of the same section concatenate. -/
theorem scan_blocks_concat (bs : List Block) (hbs : ∀ b ∈ bs, blockOk b = true) :
    scanGo ((bs.map blockLines).flatten) ScanMode.top [] []
      = some ((bs.map blockU).flatten, (bs.map blockS).flatten) := by
  simpa using scanGo_blocks bs hbs [] []

/-- C10 witness: a staged block, a junk line, and two untracked blocks — in
that order — scan to the two untracked blocks' entries concatenated in
input order plus the staged entry. -/
theorem scan_blocks_concat_witness :
    scanGo (([Block.sb "  (use)".data [("  modified: a.txt").data],
        Block.plain "junk".data,
        Block.ub "  (use)".data [("  f1").data],
        Block.ub "  (use)".data [("  f2").data]].map blockLines).flatten)
      ScanMode.top [] []
      = some ([Item.new "f1".data, Item.new "f2".data], [Item.new "a.txt".data]) := by
  have h := scan_blocks_concat
    [Block.sb "  (use)".data [("  modified: a.txt").data],
      Block.plain "junk".data,
      Block.ub "  (use)".data [("  f1").data],
      Block.ub "  (use)".data [("  f2").data]] (by decide)
  exact h.trans (by decide)
